import Mathlib

/-!
Verification of the gate coordinator of jacwright/simplified-concurrency.

The repository ships two variants of the coordinator:

* `src/concurrency.ts` (compiled copy `src/concurrency.js`): one merged FIFO
  queue `deferred` holding both suspended invocations and suspended response
  deliveries, a numeric-handle set `blockingCalls`, a settlement-window map
  `callsJustBlocked`, the output gate `outputGate`, and a synchronous drain
  loop `process`.
* `src/unnamed/part_001`: two FIFO queues `deferredResponses` and
  `deferredBlocks`, a promise-keyed set `blockingCalls`, wrappers
  `blockFunction` / `blockResponse` / `blockWhile`, and an asynchronous drain
  loop `process` that awaits the settlement barrier `afterAll` after every
  drained task.

Namespace `SCQ` embeds the two-queue variant, namespace `SCM` the merged-queue
variant.  JavaScript here is single-threaded: every coordinator mutation is a
synchronous block between suspension points, so each such block becomes one
step of a state machine; the nondeterministic order in which promises settle
becomes the choice of the event list.  Promises are identified by numeric
tokens; outcomes (fulfillment value or rejection reason) by `Outcome`.
-/

namespace SimplifiedConcurrency

/-- Outcome of an asynchronous operation: a promise either fulfills with a
value or rejects with a reason.  Values and reasons are abstract numeric
tokens; the coordinator never inspects them. -/
inductive Outcome
  | fulfilled (v : Nat)
  | rejected (r : Nat)
deriving DecidableEq, Repr

/-- Actions visible in a drain loop: delivering a deferred response, running a
deferred invocation, or awaiting the settlement barrier `afterAll`. -/
inductive QAct
  | taskResp (t : Nat) (o : Outcome)
  | taskBlock (t : Nat)
  | barrier
deriving DecidableEq, Repr

/-- True for the two kinds of deferred-task actions, false for the barrier. -/
def isTaskAct : QAct → Bool
  | .barrier => false
  | _ => true

/-- Decides that an action list never has two task actions back to back, which
is the shape of a drain loop that re-runs the settlement barrier between any
two deferred tasks. -/
def noAdjacentTasks : List QAct → Bool
  | a :: b :: rest => (!(isTaskAct a && isTaskAct b)) && noAdjacentTasks (b :: rest)
  | _ => true

namespace SCQ

/-- State of the two-queue coordinator of `src/unnamed/part_001`.  The fields
`blockingCalls`, `deferredResponses`, `deferredBlocks` embed lines 5-7 of the
source (`blockingCalls` is a JavaScript `Set`, kept duplicate-free by the step
guards; the queues are arrays used FIFO via `push`/`shift`).  The remaining
fields are ghost history used only to state properties: `nextTask` numbers the
closures the wrappers create, `started` records tasks whose underlying
operation has been invoked, `settledOps` tasks whose underlying promise has
settled, `delivered` outcomes handed to the original caller,
`enqueuedBlocks`/`dequeuedBlocks` the invocation queue's push/shift history,
and `droppedBlocks`/`droppedResponses` what `reset` discarded. -/
structure State where
  blockingCalls : List Nat
  deferredResponses : List (Nat × Outcome)
  deferredBlocks : List Nat
  nextTask : Nat
  started : List Nat
  settledOps : List Nat
  delivered : List (Nat × Outcome)
  enqueuedBlocks : List Nat
  dequeuedBlocks : List Nat
  droppedBlocks : List Nat
  droppedResponses : List (Nat × Outcome)
deriving DecidableEq, Repr

/-- Events of the two-queue coordinator; each is one synchronous block of
`src/unnamed/part_001` between suspension points:

* `beginBlocking p` — `blockWhile` registers pending promise `p` (line 190);
* `endBlocking p` — `p` settles, its `finally` handler removes it (line 192);
* `callBlockable` — a `blockable`-wrapped call arrives; `blockFunction`
  (lines 160-167) either invokes the target now or enqueues the closure;
* `startGated` — a `blockableResponse`-wrapped call arrives; the target is
  applied unconditionally (lines 142-146);
* `opSettled t o` — the promise behind gated task `t` settles with `o`; the
  `finally` of `blockResponse` (lines 177-179) defers or passes it through;
* `drainStep` — one iteration of the `process` loop (lines 203-206);
* `reset` — lines 233-237. -/
inductive Ev
  | beginBlocking (p : Nat)
  | endBlocking (p : Nat)
  | callBlockable
  | startGated
  | opSettled (t : Nat) (o : Outcome)
  | drainStep
  | reset
deriving DecidableEq, Repr

/-- One step of the two-queue coordinator.  `none` means the event is not
enabled in this state (its guard, read off the source, fails).

* `beginBlocking`: `blockingCalls.add(promise)` for a fresh pending promise.
* `endBlocking`: `blockingCalls.delete(promise)` in the `finally` handler.
* `callBlockable`: `blockFunction` checks `blockingCalls.size`; empty — the
  target is applied at once (the task becomes `started`, its result later
  flowing through `blockResponse`); non-empty — the closure is pushed onto
  `deferredBlocks` and the caller keeps an unsettled placeholder.
* `startGated`: `blockResponse(target.apply(this, args))` — the target is
  applied immediately, with no guard at all.
* `opSettled`: the `finally` of `blockResponse` runs once, when the underlying
  promise of a started task settles: with blockers present it pushes a
  resolver onto `deferredResponses` (delivery withheld), otherwise the outcome
  passes through to the caller at once (recorded in `delivered`).
* `drainStep`: one iteration of `process`: only when `blockingCalls` is empty,
  shift from `deferredResponses` if non-empty else from `deferredBlocks`.
* `reset`: clears the set and both queues; ghost fields record the dropped
  entries. -/
def stepFn (s : State) : Ev → Option State
  | .beginBlocking p =>
      if p ∈ s.blockingCalls then none
      else some { s with blockingCalls := s.blockingCalls ++ [p] }
  | .endBlocking p =>
      if p ∈ s.blockingCalls then
        some { s with blockingCalls := s.blockingCalls.erase p }
      else none
  | .callBlockable =>
      if s.blockingCalls = [] then
        some { s with started := s.started ++ [s.nextTask], nextTask := s.nextTask + 1 }
      else
        some { s with deferredBlocks := s.deferredBlocks ++ [s.nextTask],
                      enqueuedBlocks := s.enqueuedBlocks ++ [s.nextTask],
                      nextTask := s.nextTask + 1 }
  | .startGated =>
      some { s with started := s.started ++ [s.nextTask], nextTask := s.nextTask + 1 }
  | .opSettled t o =>
      if t ∈ s.started ∧ t ∉ s.settledOps then
        if s.blockingCalls = [] then
          some { s with settledOps := s.settledOps ++ [t],
                        delivered := s.delivered ++ [(t, o)] }
        else
          some { s with settledOps := s.settledOps ++ [t],
                        deferredResponses := s.deferredResponses ++ [(t, o)] }
      else none
  | .drainStep =>
      if s.blockingCalls = [] then
        match s.deferredResponses with
        | p :: rest =>
            some { s with deferredResponses := rest, delivered := s.delivered ++ [p] }
        | [] =>
            match s.deferredBlocks with
            | t :: rest =>
                some { s with deferredBlocks := rest, started := s.started ++ [t],
                              dequeuedBlocks := s.dequeuedBlocks ++ [t] }
            | [] => none
      else none
  | .reset =>
      some { s with blockingCalls := [], deferredResponses := [], deferredBlocks := [],
                    droppedBlocks := s.droppedBlocks ++ s.deferredBlocks,
                    droppedResponses := s.droppedResponses ++ s.deferredResponses }

/-- Runs a list of events from a state; fails if any event is not enabled. -/
def run (s : State) : List Ev → Option State
  | [] => some s
  | e :: es =>
      match stepFn s e with
      | some s1 => run s1 es
      | none => none

/-- The freshly constructed coordinator: everything empty. -/
def init : State :=
  ⟨[], [], [], 0, [], [], [], [], [], [], []⟩

/-- One iteration of the `process` loop of `src/unnamed/part_001`
(lines 203-206): enabled only when `blockingCalls` is empty and a queue is
non-empty; shifts from `deferredResponses` first, else from `deferredBlocks`.
Running a deferred invocation applies the stored target, whose synchronous
body may mutate the coordinator arbitrarily: that effect is the parameter
`exec`.  Delivering a deferred response merely resolves a stored resolver. -/
def qDrainStep (exec : Nat → State → State) (s : State) : Option (QAct × State) :=
  if s.blockingCalls = [] then
    match s.deferredResponses with
    | p :: rest =>
        some (.taskResp p.1 p.2,
          { s with deferredResponses := rest, delivered := s.delivered ++ [p] })
    | [] =>
        match s.deferredBlocks with
        | t :: rest =>
            some (.taskBlock t,
              exec t { s with deferredBlocks := rest, started := s.started ++ [t],
                              dequeuedBlocks := s.dequeuedBlocks ++ [t] })
        | [] => none
  else none

/-- The loop of `process` (lines 203-206): while the guard holds, drain one
task, then `await afterAll()` — the settlement barrier, during which the rest
of the system may run, modelled by the arbitrary transformation `env` — and
re-check the guard on the resulting state.  Emits the performed actions,
with a `barrier` action after every drained task. -/
def processQ (exec : Nat → State → State) (env : State → State) :
    Nat → State → List QAct
  | 0, _ => []
  | fuel + 1, s =>
      match qDrainStep exec s with
      | some (a, s1) => a :: QAct.barrier :: processQ exec env fuel (env s1)
      | none => []

/-- The whole of `process` (lines 201-207): it first awaits `afterAll` once
(line 202) and only then enters the loop. -/
def processQFull (exec : Nat → State → State) (env : State → State)
    (fuel : Nat) (s : State) : List QAct :=
  QAct.barrier :: processQ exec env fuel (env s)

end SCQ

namespace SCM

/-- Entries of the single merged queue `deferred` of `src/concurrency.ts`
(line 7): an invocation thunk pushed by `blockable` (line 137), or a response
thunk pushed by `onFulfilled` / `onRejected` (lines 207 and 218), the latter
carrying the captured outcome it will resolve or reject with. -/
inductive MTask
  | invocation (id : Nat)
  | response (id : Nat) (o : Outcome)
deriving DecidableEq, Repr

/-- Whether a merged-queue entry is a deferred response delivery. -/
def MTask.isResponse : MTask → Bool
  | .response _ _ => true
  | _ => false

/-- Maps a merged-queue entry to the drain action performed when it runs. -/
def actOfMTask : MTask → QAct
  | .invocation i => QAct.taskBlock i
  | .response i o => QAct.taskResp i o

/-- The state `process` and the queue-facing wrappers of `src/concurrency.ts`
touch: the handle set `blockingCalls` (line 5) and the merged queue `deferred`
(line 7). -/
structure PState where
  blockingCalls : List Nat
  deferred : List MTask
deriving DecidableEq, Repr

/-- The loop condition and body of `process` in `src/concurrency.ts`
(lines 227-231): when `blockingCalls` is empty and `deferred` non-empty,
shift the single merged queue.  There is no response-before-invocation
choice: whatever entry is oldest runs next. -/
def pDrainStep (s : PState) : Option (MTask × PState) :=
  if s.blockingCalls = [] then
    match s.deferred with
    | t :: rest => some (t, { s with deferred := rest })
    | [] => none
  else none

/-- The `process` loop of `src/concurrency.ts` (lines 227-231) with the
executed task's synchronous effect supplied by `eff`.  Returns the log of
executed tasks, each paired with the state in which it was dequeued.  The
loop is synchronous: nothing else runs between iterations. -/
def process (eff : MTask → PState → PState) : Nat → PState → List (MTask × PState)
  | 0, _ => []
  | fuel + 1, s =>
      match pDrainStep s with
      | some (t, s1) => (t, s) :: process eff fuel (eff t s1)
      | none => []

/-- The `process` loop of `src/concurrency.ts` again, emitting its actions in
the shared drain-action vocabulary.  The loop body is just
`deferred.shift()!()` — it never awaits `afterAll` between iterations, so no
`barrier` action is ever emitted. -/
def processActs (eff : MTask → PState → PState) : Nat → PState → List QAct
  | 0, _ => []
  | fuel + 1, s =>
      match pDrainStep s with
      | some (t, s1) => actOfMTask t :: processActs eff fuel (eff t s1)
      | none => []

/-- The deferred branch of `blockable` in `src/concurrency.ts`
(lines 136-138): the captured call is pushed onto the merged queue. -/
def blockableDefer (s : PState) (t : Nat) : PState :=
  { s with deferred := s.deferred ++ [MTask.invocation t] }

/-- `onFulfilled` of `src/concurrency.ts` (lines 205-211): with blockers
present the result is captured as a deferred response thunk and nothing is
delivered now (`none`); otherwise the result passes straight through. -/
def onFulfilled (s : PState) (t : Nat) (v : Nat) : PState × Option Outcome :=
  if s.blockingCalls = [] then (s, some (Outcome.fulfilled v))
  else ({ s with deferred := s.deferred ++ [MTask.response t (Outcome.fulfilled v)] }, none)

/-- `onRejected` of `src/concurrency.ts` (lines 216-222): with blockers
present the reason is captured as a deferred rejection thunk and nothing is
delivered now (`none`); otherwise the rejection passes straight through. -/
def onRejected (s : PState) (t : Nat) (r : Nat) : PState × Option Outcome :=
  if s.blockingCalls = [] then (s, some (Outcome.rejected r))
  else ({ s with deferred := s.deferred ++ [MTask.response t (Outcome.rejected r)] }, none)

/-- The `finish` closure inside `blockFor` of `src/concurrency.ts`
(lines 184-189), acting on the pair (`blockingCalls`, `callsJustBlocked`):
if the handle is already gone it does nothing (the guard on line 185),
otherwise it removes the handle from both collections; the returned flag
records whether the set became empty, in which case the source schedules
`afterAll().then(process)`. -/
def finish (bc jb : List Nat) (h : Nat) : List Nat × List Nat × Bool :=
  if h ∈ bc then
    let bc1 := bc.erase h
    (bc1, jb.erase h, bc1.isEmpty)
  else (bc, jb, false)

/-- Settlement of the promise awaited inside `blockFor` (lines 191-199 of
`src/concurrency.ts`): the success path and the failure path both call
`finish` and then propagate the original outcome unchanged (the `catch`
rethrows `e`; the success path returns `response`). -/
def blockForSettle (bc jb : List Nat) (h : Nat) (o : Outcome) :
    (List Nat × List Nat × Bool) × Outcome :=
  (finish bc jb h, o)

/-- State of the blocking-handle lifecycle of `src/concurrency.ts`:
`blockingCalls` and `call` are the source fields (lines 5 and 8);
`callsJustBlocked` keeps only the handle keys of the source's map (each
handle identifies its promise, so the promise component is redundant).
Ghost fields: `settled` records which underlying promises have settled
(fulfilled or rejected), `rejected` the subset that rejected, `heldGates`
the output gates created by `outputGate` together with the handles whose
promises they await, `deliveredGates` the blockable results already handed
to their callers (resolved or rejected), `nextGate` numbers the gates. -/
structure MState where
  blockingCalls : List Nat
  callsJustBlocked : List Nat
  call : Nat
  settled : List Nat
  rejected : List Nat
  heldGates : List (Nat × List Nat)
  deliveredGates : List Nat
  nextGate : Nat
deriving DecidableEq, Repr

/-- `Promise.all(promises)` over the captured handles has settled: it
fulfills once every promise has fulfilled, and it rejects as soon as any
single promise rejects, without waiting for the others. -/
def promiseAllSettled (settled rejected hl : List Nat) : Bool :=
  hl.all (fun h => h ∈ settled ∧ h ∉ rejected) || hl.any (fun h => h ∈ rejected)

/-- Events of the handle lifecycle of `src/concurrency.ts`:

* `startBlockFor` — entry of `blockFor` (lines 179-182): a fresh handle is
  added to `blockingCalls` and to the settlement window `callsJustBlocked`;
* `expireWindow h` — the unconditional cleanup
  `afterAll().then(() => callsJustBlocked.delete(thisCall))` scheduled on
  line 182 fires, ten ticks after the call started, whether or not the
  underlying promise has settled;
* `settle h failed` — the underlying promise of handle `h` settles
  (`failed` says whether it rejected) and `finish` runs either way
  (lines 184-198);
* `bodyReturn` — a `blockable` body returns and `outputGate`
  (lines 257-267) runs on its result;
* `deliverGate g` — the `Promise.all` of a held gate settles (line 263),
  releasing the blockable result to its caller: resolution when every
  captured promise fulfilled, rejection as soon as any captured promise
  rejected (the `.then` on line 263 has no rejection handler, so the
  rejection passes straight to the caller). -/
inductive MEv
  | startBlockFor
  | expireWindow (h : Nat)
  | settle (h : Nat) (failed : Bool)
  | bodyReturn
  | deliverGate (g : Nat)
deriving DecidableEq, Repr

/-- One step of the handle lifecycle of `src/concurrency.ts`.

* `startBlockFor`: `thisCall = ++call`, insert into the set and the window.
* `expireWindow h`: delete `h` from the window (enabled while `h` is there).
* `settle h failed`: record settlement (and rejection when `failed`), then
  `finish`: if `h` is still in the set remove it from set and window (the
  line-185 guard makes a second removal a no-op, embedded here by leaving
  the state unchanged on that path); `finish` runs on the catch path too.
* `bodyReturn`: `outputGate`: if the window is non-empty, delete every
  windowed handle from `blockingCalls`, clear the window, and hold the
  result behind `Promise.all` of the windowed promises (a new held gate);
  if the window is empty, return the result unchanged — the caller's promise
  resolves now (a delivered gate).
* `deliverGate g`: the held gate's `Promise.all` settles — enabled exactly
  when every captured handle has fulfilled (the gate resolves with the
  result) or some captured handle has rejected (the gate rejects at once,
  siblings still pending). -/
def mstepFn (s : MState) : MEv → Option MState
  | .startBlockFor =>
      some { s with call := s.call + 1,
                    blockingCalls := s.blockingCalls ++ [s.call + 1],
                    callsJustBlocked := s.callsJustBlocked ++ [s.call + 1] }
  | .expireWindow h =>
      if h ∈ s.callsJustBlocked then
        some { s with callsJustBlocked := s.callsJustBlocked.erase h }
      else none
  | .settle h failed =>
      if 1 ≤ h ∧ h ≤ s.call ∧ h ∉ s.settled then
        if h ∈ s.blockingCalls then
          some { s with settled := s.settled ++ [h],
                        rejected := if failed then s.rejected ++ [h] else s.rejected,
                        blockingCalls := s.blockingCalls.erase h,
                        callsJustBlocked := s.callsJustBlocked.erase h }
        else
          some { s with settled := s.settled ++ [h],
                        rejected := if failed then s.rejected ++ [h] else s.rejected }
      else none
  | .bodyReturn =>
      if s.callsJustBlocked = [] then
        some { s with deliveredGates := s.deliveredGates ++ [s.nextGate],
                      nextGate := s.nextGate + 1 }
      else
        some { s with heldGates := s.heldGates ++ [(s.nextGate, s.callsJustBlocked)],
                      blockingCalls := s.blockingCalls.filter
                        (fun h => h ∉ s.callsJustBlocked),
                      callsJustBlocked := [],
                      nextGate := s.nextGate + 1 }
  | .deliverGate g =>
      match s.heldGates.find? (fun e => e.1 = g) with
      | some (_, hs) =>
          if promiseAllSettled s.settled s.rejected hs then
            some { s with heldGates := s.heldGates.filter (fun e => e.1 ≠ g),
                          deliveredGates := s.deliveredGates ++ [g] }
          else none
      | none => none

/-- Runs a list of lifecycle events from a state. -/
def mrun (s : MState) : List MEv → Option MState
  | [] => some s
  | e :: es =>
      match mstepFn s e with
      | some s1 => mrun s1 es
      | none => none

/-- The freshly constructed coordinator of `src/concurrency.ts`. -/
def minit : MState :=
  ⟨[], [], 0, [], [], [], [], 0⟩

end SCM

/-- Invariant of every reachable state of the two-queue coordinator, tying the
real queues to the ghost history.  Queued invocations have not been invoked;
settlement implies invocation; every delivered or queued response comes from a
settled operation; entries dropped by `reset` are never invoked, never
re-queued and never delivered; all recorded task tokens are below the
allocation counter, making histories duplicate-free. -/
structure Inv (s : SCQ.State) : Prop where
  blocksNotStarted : ∀ t ∈ s.deferredBlocks, t ∉ s.started
  settledStarted : ∀ t ∈ s.settledOps, t ∈ s.started
  deliveredSettled : ∀ p ∈ s.delivered, p.1 ∈ s.settledOps
  respSettled : ∀ p ∈ s.deferredResponses, p.1 ∈ s.settledOps
  droppedNotStarted : ∀ t ∈ s.droppedBlocks, t ∉ s.started
  droppedNotQueued : ∀ t ∈ s.droppedBlocks, t ∉ s.deferredBlocks
  droppedRespSettled : ∀ p ∈ s.droppedResponses, p.1 ∈ s.settledOps
  droppedRespNotQueued : ∀ p ∈ s.droppedResponses, ∀ q ∈ s.deferredResponses, p.1 ≠ q.1
  droppedRespNotDelivered : ∀ p ∈ s.droppedResponses, ∀ q ∈ s.delivered, p.1 ≠ q.1
  respNotDelivered : ∀ p ∈ s.deferredResponses, ∀ q ∈ s.delivered, p.1 ≠ q.1
  respNodupKeys : (s.deferredResponses.map Prod.fst).Nodup
  startedFresh : ∀ t ∈ s.started, t < s.nextTask
  blocksFresh : ∀ t ∈ s.deferredBlocks, t < s.nextTask
  enqFresh : ∀ t ∈ s.enqueuedBlocks, t < s.nextTask
  droppedFresh : ∀ t ∈ s.droppedBlocks, t < s.nextTask
  blocksNodup : s.deferredBlocks.Nodup
  enqNodup : s.enqueuedBlocks.Nodup

/-- Identity task effect: a drained task whose synchronous body leaves the
coordinator untouched (a response resolver, or an invocation whose body makes
no coordinated calls before its first suspension). -/
def effId : SCM.MTask → SCM.PState → SCM.PState := fun _ s => s

/-- Trace for the C1 counterexample on `src/concurrency.ts`: a `blockable`
body starts a blocking call (handle 1, a slow operation), keeps computing
through more than one settlement window — so the unconditional cleanup
scheduled on line 182 deletes handle 1 from `callsJustBlocked` — and then
returns.  `outputGate` sees an empty window and releases the result at once,
while handle 1 is still pending in `blockingCalls`. -/
def exTrace1 : List SCM.MEv := [.startBlockFor, .expireWindow 1, .bodyReturn]

/-- Final state of `exTrace1`: gate 0 delivered, blocking call 1 unsettled. -/
def exFinal1 : SCM.MState := ⟨[1], [], 1, [], [], [], [0], 1⟩

/-- Second trace for the C1 counterexample, exercising the rejection path of
the output gate: a `blockable` body starts two blocking calls (handles 1
and 2) and returns at once, so `outputGate` holds the result behind
`Promise.all` of both promises (gate 0); then the promise of handle 1
rejects.  `Promise.all` rejects immediately and the `.then` on line 263 has
no rejection handler, so the blockable caller's promise rejects while
blocking call 2 is still pending and unsettled. -/
def exTrace1r : List SCM.MEv :=
  [.startBlockFor, .startBlockFor, .bodyReturn, .settle 1 true, .deliverGate 0]

/-- Final state of `exTrace1r`: gate 0 delivered through the rejection of
handle 1 while handle 2 never settled. -/
def exFinal1r : SCM.MState := ⟨[], [], 2, [1], [1], [], [0], 1⟩

/-- A state with one held output gate (gate 0 awaiting handle 1) whose handle
has fulfilled, used to exercise the held-gate delivery rule. -/
def wGate : SCM.MState := ⟨[], [], 1, [1], [], [(0, [1])], [], 1⟩

/-- `wGate` after the held gate's `Promise.all` resolves. -/
def wGateAfter : SCM.MState := ⟨[], [], 1, [1], [], [], [0], 1⟩

/-- A state with one held output gate over handles 1 and 2 where handle 1
has rejected and handle 2 is still pending, used to exercise the rejection
short-circuit of the held-gate delivery rule. -/
def wGateRej : SCM.MState := ⟨[], [], 2, [1], [1], [(0, [1, 2])], [], 1⟩

/-- Trace for the C4 counterexample on `src/concurrency.ts`: a `blockable`
body starts a blocking call and returns in the same tick; `outputGate`
deletes the handle from `blockingCalls` (line 260) although the underlying
operation has not completed. -/
def exTrace4 : List SCM.MEv := [.startBlockFor, .bodyReturn]

/-- State after the first event of `exTrace4`: handle 1 registered. -/
def exMid4 : SCM.MState := ⟨[1], [1], 1, [], [], [], [], 0⟩

/-- Final state of `exTrace4`: handle 1 gone from the set, nothing settled. -/
def exFinal4 : SCM.MState := ⟨[], [], 1, [], [], [(0, [1])], [], 1⟩

/-- Trace for the C5 counterexample on `src/concurrency.ts`: two blocking
calls become active and outlive their settlement windows; a `blockable`
called while the set was empty returns; `outputGate` sees an empty window
and resolves the caller's promise immediately even though `blockingCalls`
is non-empty — the immediate path's result is not response-gated. -/
def exTrace5 : List SCM.MEv :=
  [.startBlockFor, .startBlockFor, .expireWindow 1, .expireWindow 2, .bodyReturn]

/-- Final state of `exTrace5`: gate 0 delivered while handles 1, 2 pend. -/
def exFinal5 : SCM.MState := ⟨[1, 2], [], 2, [], [], [], [0], 1⟩

/-- Merged queue for the C3 counterexample: during a block, a `blockable`
call was deferred (line 137) and afterwards a `blockableResponse` result was
captured (line 207), so an invocation thunk precedes a response thunk in the
single `deferred` array of `src/concurrency.ts`. -/
def exQueue3 : SCM.PState :=
  ⟨[], [SCM.MTask.invocation 10, SCM.MTask.response 20 (Outcome.fulfilled 5)]⟩

/-- Merged queue for the C7 counterexample: two deferred invocations. -/
def exQueue7 : SCM.PState :=
  ⟨[], [SCM.MTask.invocation 10, SCM.MTask.invocation 11]⟩

/-- A two-queue coordinator state observed mid-block (one blocker active),
used to exercise steps taken while the set is non-empty. -/
def wBlocked : SCQ.State := { SCQ.init with blockingCalls := [7] }

/-- `wBlocked` after a `blockable` call arrives and is deferred. -/
def wBlockedAfter : SCQ.State :=
  { SCQ.init with blockingCalls := [7], deferredBlocks := [0], enqueuedBlocks := [0],
                  nextTask := 1 }

/-- A state with a started gated operation and one active blocker, used to
exercise the settle-while-blocked path. -/
def wSettle : SCQ.State := { SCQ.init with blockingCalls := [9], started := [0], nextTask := 1 }

/-- `wSettle` after the started operation settles while blocked: the outcome
is captured on the response queue instead of being delivered. -/
def wSettleAfter : SCQ.State :=
  { wSettle with settledOps := [0], deferredResponses := [(0, Outcome.fulfilled 3)] }

/-- A quiescent state with one queued deferred response and one queued
deferred invocation, used to exercise the drain priority. -/
def wResp : SCQ.State :=
  { SCQ.init with deferredResponses := [(3, Outcome.fulfilled 9)], deferredBlocks := [5] }

/-- A quiescent state with one queued deferred response, used to exercise the
part_001 drain loop's guard. -/
def wResp7 : SCQ.State := { SCQ.init with deferredResponses := [(4, Outcome.rejected 2)] }

/-- Event list for the C9 witness: a blocking call begins, a `blockable` call
arrives during it and is deferred, the blocker settles, and one drain step
runs the deferred invocation. -/
def wTrace9 : List SCQ.Ev := [.beginBlocking 0, .callBlockable, .endBlocking 0, .drainStep]

/-- Final state of `wTrace9`. -/
def wFinal9 : SCQ.State := ⟨[], [], [], 1, [0], [], [], [0], [0], [], []⟩

/-- Event list for the C10 witness: a `blockable` call is deferred behind a
blocking call, then `reset` discards it. -/
def wTrace10 : List SCQ.Ev := [.beginBlocking 0, .callBlockable, .reset]

/-- State after `wTrace10`: task 0 dropped. -/
def wMid10 : SCQ.State := ⟨[], [], [], 1, [], [], [], [0], [], [0], []⟩

/-- Continuation for the C10 witness: a fresh `blockable` call runs. -/
def wTrace10b : List SCQ.Ev := [.callBlockable]

/-- Final state of the C10 witness run. -/
def wFinal10 : SCQ.State := ⟨[], [], [], 2, [1], [], [], [0], [], [0], []⟩

end SimplifiedConcurrency

namespace SimplifiedConcurrency

theorem step_inv {s s' : SCQ.State} {e : SCQ.Ev} (hs : Inv s)
    (h : SCQ.stepFn s e = some s') : Inv s' := by
  cases e with
  | beginBlocking p =>
      simp only [SCQ.stepFn] at h
      split at h
      · exact Option.noConfusion h
      · injection h with h
        subst h
        cases hs
        constructor <;> assumption
  | endBlocking p =>
      simp only [SCQ.stepFn] at h
      split at h
      · injection h with h
        subst h
        cases hs
        constructor <;> assumption
      · exact Option.noConfusion h
  | callBlockable =>
      simp only [SCQ.stepFn] at h
      split at h <;> injection h with h <;> subst h
      · exact
          { blocksNotStarted := by
              intro t ht hmem
              simp only [List.mem_append, List.mem_singleton] at hmem
              rcases hmem with hmem | hmem
              · exact hs.blocksNotStarted t ht hmem
              · subst hmem
                exact absurd (hs.blocksFresh _ ht) (by omega)
            settledStarted := by
              intro t ht
              simp only [List.mem_append]
              exact Or.inl (hs.settledStarted t ht)
            deliveredSettled := hs.deliveredSettled
            respSettled := hs.respSettled
            droppedNotStarted := by
              intro t ht hmem
              simp only [List.mem_append, List.mem_singleton] at hmem
              rcases hmem with hmem | hmem
              · exact hs.droppedNotStarted t ht hmem
              · subst hmem
                exact absurd (hs.droppedFresh _ ht) (by omega)
            droppedNotQueued := hs.droppedNotQueued
            droppedRespSettled := hs.droppedRespSettled
            droppedRespNotQueued := hs.droppedRespNotQueued
            droppedRespNotDelivered := hs.droppedRespNotDelivered
            respNotDelivered := hs.respNotDelivered
            respNodupKeys := hs.respNodupKeys
            startedFresh := by
              intro t ht
              show t < s.nextTask + 1
              simp only [List.mem_append, List.mem_singleton] at ht
              rcases ht with ht | ht
              · have := hs.startedFresh t ht; omega
              · omega
            blocksFresh := by
              intro t ht
              show t < s.nextTask + 1
              have := hs.blocksFresh t ht; omega
            enqFresh := by
              intro t ht
              show t < s.nextTask + 1
              have := hs.enqFresh t ht; omega
            droppedFresh := by
              intro t ht
              show t < s.nextTask + 1
              have := hs.droppedFresh t ht; omega
            blocksNodup := hs.blocksNodup
            enqNodup := hs.enqNodup }
      · exact
          { blocksNotStarted := by
              intro t ht
              simp only [List.mem_append, List.mem_singleton] at ht
              rcases ht with ht | ht
              · exact hs.blocksNotStarted t ht
              · subst ht
                intro hmem
                exact absurd (hs.startedFresh _ hmem) (by omega)
            settledStarted := hs.settledStarted
            deliveredSettled := hs.deliveredSettled
            respSettled := hs.respSettled
            droppedNotStarted := hs.droppedNotStarted
            droppedNotQueued := by
              intro t ht hmem
              simp only [List.mem_append, List.mem_singleton] at hmem
              rcases hmem with hmem | hmem
              · exact hs.droppedNotQueued t ht hmem
              · subst hmem
                exact absurd (hs.droppedFresh _ ht) (by omega)
            droppedRespSettled := hs.droppedRespSettled
            droppedRespNotQueued := hs.droppedRespNotQueued
            droppedRespNotDelivered := hs.droppedRespNotDelivered
            respNotDelivered := hs.respNotDelivered
            respNodupKeys := hs.respNodupKeys
            startedFresh := by
              intro t ht
              show t < s.nextTask + 1
              have := hs.startedFresh t ht; omega
            blocksFresh := by
              intro t ht
              show t < s.nextTask + 1
              simp only [List.mem_append, List.mem_singleton] at ht
              rcases ht with ht | ht
              · have := hs.blocksFresh t ht; omega
              · omega
            enqFresh := by
              intro t ht
              show t < s.nextTask + 1
              simp only [List.mem_append, List.mem_singleton] at ht
              rcases ht with ht | ht
              · have := hs.enqFresh t ht; omega
              · omega
            droppedFresh := by
              intro t ht
              show t < s.nextTask + 1
              have := hs.droppedFresh t ht; omega
            blocksNodup := by
              have hn : s.nextTask ∉ s.deferredBlocks := fun hc =>
                absurd (hs.blocksFresh _ hc) (by omega)
              simp only [List.nodup_append]
              exact ⟨hs.blocksNodup, List.nodup_singleton _, by
                intro a ha hmem
                simp only [List.mem_singleton] at hmem
                subst hmem
                exact hn ha⟩
            enqNodup := by
              have hn : s.nextTask ∉ s.enqueuedBlocks := fun hc =>
                absurd (hs.enqFresh _ hc) (by omega)
              simp only [List.nodup_append]
              exact ⟨hs.enqNodup, List.nodup_singleton _, by
                intro a ha hmem
                simp only [List.mem_singleton] at hmem
                subst hmem
                exact hn ha⟩ }
  | startGated =>
      simp only [SCQ.stepFn] at h
      injection h with h
      subst h
      exact
        { blocksNotStarted := by
            intro t ht hmem
            simp only [List.mem_append, List.mem_singleton] at hmem
            rcases hmem with hmem | hmem
            · exact hs.blocksNotStarted t ht hmem
            · subst hmem
              exact absurd (hs.blocksFresh _ ht) (by omega)
          settledStarted := by
            intro t ht
            simp only [List.mem_append]
            exact Or.inl (hs.settledStarted t ht)
          deliveredSettled := hs.deliveredSettled
          respSettled := hs.respSettled
          droppedNotStarted := by
            intro t ht hmem
            simp only [List.mem_append, List.mem_singleton] at hmem
            rcases hmem with hmem | hmem
            · exact hs.droppedNotStarted t ht hmem
            · subst hmem
              exact absurd (hs.droppedFresh _ ht) (by omega)
          droppedNotQueued := hs.droppedNotQueued
          droppedRespSettled := hs.droppedRespSettled
          droppedRespNotQueued := hs.droppedRespNotQueued
          droppedRespNotDelivered := hs.droppedRespNotDelivered
          respNotDelivered := hs.respNotDelivered
          respNodupKeys := hs.respNodupKeys
          startedFresh := by
            intro t ht
            show t < s.nextTask + 1
            simp only [List.mem_append, List.mem_singleton] at ht
            rcases ht with ht | ht
            · have := hs.startedFresh t ht; omega
            · omega
          blocksFresh := by
            intro t ht
            show t < s.nextTask + 1
            have := hs.blocksFresh t ht; omega
          enqFresh := by
            intro t ht
            show t < s.nextTask + 1
            have := hs.enqFresh t ht; omega
          droppedFresh := by
            intro t ht
            show t < s.nextTask + 1
            have := hs.droppedFresh t ht; omega
          blocksNodup := hs.blocksNodup
          enqNodup := hs.enqNodup }
  | opSettled t o =>
      simp only [SCQ.stepFn] at h
      split at h <;> rename_i hg
      · split at h <;> rename_i hbc <;> injection h with h <;> subst h
        · exact
            { blocksNotStarted := hs.blocksNotStarted
              settledStarted := by
                intro x hx
                simp only [List.mem_append, List.mem_singleton] at hx
                rcases hx with hx | hx
                · exact hs.settledStarted x hx
                · subst hx; exact hg.1
              deliveredSettled := by
                intro p hp
                simp only [List.mem_append, List.mem_singleton] at hp
                rcases hp with hp | hp
                · simp only [List.mem_append]
                  exact Or.inl (hs.deliveredSettled p hp)
                · subst hp
                  simp
              respSettled := by
                intro p hp
                simp only [List.mem_append]
                exact Or.inl (hs.respSettled p hp)
              droppedNotStarted := hs.droppedNotStarted
              droppedNotQueued := hs.droppedNotQueued
              droppedRespSettled := by
                intro p hp
                simp only [List.mem_append]
                exact Or.inl (hs.droppedRespSettled p hp)
              droppedRespNotQueued := hs.droppedRespNotQueued
              droppedRespNotDelivered := by
                intro p hp q hq
                simp only [List.mem_append, List.mem_singleton] at hq
                rcases hq with hq | hq
                · exact hs.droppedRespNotDelivered p hp q hq
                · subst hq
                  intro hc
                  have h1 := hs.droppedRespSettled p hp
                  rw [hc] at h1
                  exact hg.2 h1
              respNotDelivered := by
                intro p hp q hq
                simp only [List.mem_append, List.mem_singleton] at hq
                rcases hq with hq | hq
                · exact hs.respNotDelivered p hp q hq
                · subst hq
                  intro hc
                  have h1 := hs.respSettled p hp
                  rw [hc] at h1
                  exact hg.2 h1
              respNodupKeys := hs.respNodupKeys
              startedFresh := hs.startedFresh
              blocksFresh := hs.blocksFresh
              enqFresh := hs.enqFresh
              droppedFresh := hs.droppedFresh
              blocksNodup := hs.blocksNodup
              enqNodup := hs.enqNodup }
        · exact
            { blocksNotStarted := hs.blocksNotStarted
              settledStarted := by
                intro x hx
                simp only [List.mem_append, List.mem_singleton] at hx
                rcases hx with hx | hx
                · exact hs.settledStarted x hx
                · subst hx; exact hg.1
              deliveredSettled := by
                intro p hp
                simp only [List.mem_append]
                exact Or.inl (hs.deliveredSettled p hp)
              respSettled := by
                intro p hp
                simp only [List.mem_append, List.mem_singleton] at hp
                rcases hp with hp | hp
                · simp only [List.mem_append]
                  exact Or.inl (hs.respSettled p hp)
                · subst hp
                  simp
              droppedNotStarted := hs.droppedNotStarted
              droppedNotQueued := hs.droppedNotQueued
              droppedRespSettled := by
                intro p hp
                simp only [List.mem_append]
                exact Or.inl (hs.droppedRespSettled p hp)
              droppedRespNotQueued := by
                intro p hp q hq
                simp only [List.mem_append, List.mem_singleton] at hq
                rcases hq with hq | hq
                · exact hs.droppedRespNotQueued p hp q hq
                · subst hq
                  intro hc
                  have h1 := hs.droppedRespSettled p hp
                  rw [hc] at h1
                  exact hg.2 h1
              droppedRespNotDelivered := hs.droppedRespNotDelivered
              respNotDelivered := by
                intro p hp q hq
                simp only [List.mem_append, List.mem_singleton] at hp
                rcases hp with hp | hp
                · exact hs.respNotDelivered p hp q hq
                · subst hp
                  intro hc
                  have h1 := hs.deliveredSettled q hq
                  rw [← hc] at h1
                  exact hg.2 h1
              respNodupKeys := by
                have hn : t ∉ s.deferredResponses.map Prod.fst := by
                  intro hc
                  simp only [List.mem_map] at hc
                  obtain ⟨p, hp, hpt⟩ := hc
                  have h1 := hs.respSettled p hp
                  rw [hpt] at h1
                  exact hg.2 h1
                show ((s.deferredResponses ++ [(t, o)]).map Prod.fst).Nodup
                rw [List.map_append]
                simp only [List.nodup_append]
                exact ⟨hs.respNodupKeys, by simp, by
                  intro a ha hmem
                  simp only [List.map_cons, List.map_nil, List.mem_singleton] at hmem
                  subst hmem
                  exact hn ha⟩
              startedFresh := hs.startedFresh
              blocksFresh := hs.blocksFresh
              enqFresh := hs.enqFresh
              droppedFresh := hs.droppedFresh
              blocksNodup := hs.blocksNodup
              enqNodup := hs.enqNodup }
      · exact Option.noConfusion h
  | drainStep =>
      simp only [SCQ.stepFn] at h
      split at h <;> rename_i hbc
      · split at h <;> rename_i hresp
        · rename_i p0 rest
          injection h with h
          subst h
          have hhead : p0 ∈ s.deferredResponses := by
            rw [hresp]; exact List.mem_cons_self _ _
          have hkeys := hs.respNodupKeys
          rw [hresp] at hkeys
          simp only [List.map_cons, List.nodup_cons] at hkeys
          exact
            { blocksNotStarted := hs.blocksNotStarted
              settledStarted := hs.settledStarted
              deliveredSettled := by
                intro p hp
                simp only [List.mem_append, List.mem_singleton] at hp
                rcases hp with hp | hp
                · exact hs.deliveredSettled p hp
                · subst hp
                  exact hs.respSettled _ hhead
              respSettled := by
                intro p hp
                exact hs.respSettled p (by rw [hresp]; exact List.mem_cons_of_mem _ hp)
              droppedNotStarted := hs.droppedNotStarted
              droppedNotQueued := hs.droppedNotQueued
              droppedRespSettled := hs.droppedRespSettled
              droppedRespNotQueued := by
                intro p hp q hq
                exact hs.droppedRespNotQueued p hp q
                  (by rw [hresp]; exact List.mem_cons_of_mem _ hq)
              droppedRespNotDelivered := by
                intro p hp q hq
                simp only [List.mem_append, List.mem_singleton] at hq
                rcases hq with hq | hq
                · exact hs.droppedRespNotDelivered p hp q hq
                · subst hq
                  exact hs.droppedRespNotQueued p hp _ hhead
              respNotDelivered := by
                intro p hp q hq
                simp only [List.mem_append, List.mem_singleton] at hq
                rcases hq with hq | hq
                · exact hs.respNotDelivered p
                    (by rw [hresp]; exact List.mem_cons_of_mem _ hp) q hq
                · subst hq
                  intro hc
                  have h1 := List.mem_map_of_mem Prod.fst hp
                  rw [hc] at h1
                  exact hkeys.1 h1
              respNodupKeys := hkeys.2
              startedFresh := hs.startedFresh
              blocksFresh := hs.blocksFresh
              enqFresh := hs.enqFresh
              droppedFresh := hs.droppedFresh
              blocksNodup := hs.blocksNodup
              enqNodup := hs.enqNodup }
        · split at h <;> rename_i hblk
          · rename_i t rest
            injection h with h
            subst h
            have hhead : t ∈ s.deferredBlocks := by
              rw [hblk]; exact List.mem_cons_self _ _
            have hnodup := hs.blocksNodup
            rw [hblk] at hnodup
            simp only [List.nodup_cons] at hnodup
            exact
              { blocksNotStarted := by
                  intro x hx hmem
                  have hxb : x ∈ s.deferredBlocks := by
                    rw [hblk]; exact List.mem_cons_of_mem _ hx
                  simp only [List.mem_append, List.mem_singleton] at hmem
                  rcases hmem with hmem | hmem
                  · exact hs.blocksNotStarted x hxb hmem
                  · subst hmem
                    exact hnodup.1 hx
                settledStarted := by
                  intro x hx
                  simp only [List.mem_append]
                  exact Or.inl (hs.settledStarted x hx)
                deliveredSettled := hs.deliveredSettled
                respSettled := hs.respSettled
                droppedNotStarted := by
                  intro x hx hmem
                  simp only [List.mem_append, List.mem_singleton] at hmem
                  rcases hmem with hmem | hmem
                  · exact hs.droppedNotStarted x hx hmem
                  · subst hmem
                    exact hs.droppedNotQueued x hx hhead
                droppedNotQueued := by
                  intro x hx hmem
                  exact hs.droppedNotQueued x hx
                    (by rw [hblk]; exact List.mem_cons_of_mem _ hmem)
                droppedRespSettled := hs.droppedRespSettled
                droppedRespNotQueued := hs.droppedRespNotQueued
                droppedRespNotDelivered := hs.droppedRespNotDelivered
                respNotDelivered := hs.respNotDelivered
                respNodupKeys := hs.respNodupKeys
                startedFresh := by
                  intro x hx
                  simp only [List.mem_append, List.mem_singleton] at hx
                  rcases hx with hx | hx
                  · exact hs.startedFresh x hx
                  · subst hx
                    exact hs.blocksFresh x hhead
                blocksFresh := by
                  intro x hx
                  exact hs.blocksFresh x (by rw [hblk]; exact List.mem_cons_of_mem _ hx)
                enqFresh := hs.enqFresh
                droppedFresh := hs.droppedFresh
                blocksNodup := hnodup.2
                enqNodup := hs.enqNodup }
          · exact Option.noConfusion h
      · exact Option.noConfusion h
  | reset =>
      simp only [SCQ.stepFn] at h
      injection h with h
      subst h
      exact
        { blocksNotStarted := by intro t ht; exact absurd ht (List.not_mem_nil t)
          settledStarted := hs.settledStarted
          deliveredSettled := hs.deliveredSettled
          respSettled := by intro p hp; exact absurd hp (List.not_mem_nil p)
          droppedNotStarted := by
            intro t ht
            simp only [List.mem_append] at ht
            rcases ht with ht | ht
            · exact hs.droppedNotStarted t ht
            · exact hs.blocksNotStarted t ht
          droppedNotQueued := by intro t ht hmem; exact absurd hmem (List.not_mem_nil t)
          droppedRespSettled := by
            intro p hp
            simp only [List.mem_append] at hp
            rcases hp with hp | hp
            · exact hs.droppedRespSettled p hp
            · exact hs.respSettled p hp
          droppedRespNotQueued := by intro p hp q hq; exact absurd hq (List.not_mem_nil q)
          droppedRespNotDelivered := by
            intro p hp q hq
            simp only [List.mem_append] at hp
            rcases hp with hp | hp
            · exact hs.droppedRespNotDelivered p hp q hq
            · exact hs.respNotDelivered p hp q hq
          respNotDelivered := by intro p hp; exact absurd hp (List.not_mem_nil p)
          respNodupKeys := by simp
          startedFresh := hs.startedFresh
          blocksFresh := by intro t ht; exact absurd ht (List.not_mem_nil t)
          enqFresh := hs.enqFresh
          droppedFresh := by
            intro t ht
            simp only [List.mem_append] at ht
            rcases ht with ht | ht
            · exact hs.droppedFresh t ht
            · exact hs.blocksFresh t ht
          blocksNodup := List.nodup_nil
          enqNodup := hs.enqNodup }

theorem init_inv : Inv SCQ.init := by
  constructor <;> simp [SCQ.init]

theorem run_inv {s s' : SCQ.State} {evs : List SCQ.Ev} (hs : Inv s)
    (h : SCQ.run s evs = some s') : Inv s' := by
  induction evs generalizing s with
  | nil =>
      simp only [SCQ.run] at h
      injection h with h
      subst h
      exact hs
  | cons e es ih =>
      simp only [SCQ.run] at h
      cases hst : SCQ.stepFn s e with
      | none => rw [hst] at h; exact Option.noConfusion h
      | some s1 =>
          rw [hst] at h
          exact ih (step_inv hs hst) h

theorem step_dropped_mono {s s' : SCQ.State} {e : SCQ.Ev}
    (h : SCQ.stepFn s e = some s') :
    (∀ t ∈ s.droppedBlocks, t ∈ s'.droppedBlocks) ∧
    (∀ p ∈ s.droppedResponses, p ∈ s'.droppedResponses) := by
  cases e with
  | beginBlocking p =>
      simp only [SCQ.stepFn] at h
      split at h
      · exact Option.noConfusion h
      · injection h with h; subst h; exact ⟨fun t ht => ht, fun q hq => hq⟩
  | endBlocking p =>
      simp only [SCQ.stepFn] at h
      split at h
      · injection h with h; subst h; exact ⟨fun t ht => ht, fun q hq => hq⟩
      · exact Option.noConfusion h
  | callBlockable =>
      simp only [SCQ.stepFn] at h
      split at h <;> injection h with h <;> subst h <;>
        exact ⟨fun t ht => ht, fun q hq => hq⟩
  | startGated =>
      simp only [SCQ.stepFn] at h
      injection h with h; subst h; exact ⟨fun t ht => ht, fun q hq => hq⟩
  | opSettled t o =>
      simp only [SCQ.stepFn] at h
      split at h
      · split at h <;> injection h with h <;> subst h <;>
          exact ⟨fun t ht => ht, fun q hq => hq⟩
      · exact Option.noConfusion h
  | drainStep =>
      simp only [SCQ.stepFn] at h
      split at h
      · split at h
        · injection h with h; subst h; exact ⟨fun t ht => ht, fun q hq => hq⟩
        · split at h
          · injection h with h; subst h; exact ⟨fun t ht => ht, fun q hq => hq⟩
          · exact Option.noConfusion h
      · exact Option.noConfusion h
  | reset =>
      simp only [SCQ.stepFn] at h
      injection h with h; subst h
      exact ⟨fun t ht => List.mem_append_left _ ht,
             fun q hq => List.mem_append_left _ hq⟩

theorem run_dropped_mono {s s' : SCQ.State} {evs : List SCQ.Ev}
    (h : SCQ.run s evs = some s') :
    (∀ t ∈ s.droppedBlocks, t ∈ s'.droppedBlocks) ∧
    (∀ p ∈ s.droppedResponses, p ∈ s'.droppedResponses) := by
  induction evs generalizing s with
  | nil =>
      simp only [SCQ.run] at h
      injection h with h
      subst h
      exact ⟨fun t ht => ht, fun q hq => hq⟩
  | cons e es ih =>
      simp only [SCQ.run] at h
      cases hst : SCQ.stepFn s e with
      | none => rw [hst] at h; exact Option.noConfusion h
      | some s1 =>
          rw [hst] at h
          have h1 := step_dropped_mono hst
          have h2 := ih h
          exact ⟨fun t ht => h2.1 t (h1.1 t ht), fun q hq => h2.2 q (h1.2 q hq)⟩

theorem step_fifo {s s' : SCQ.State} {e : SCQ.Ev} (hne : e ≠ SCQ.Ev.reset)
    (heq : s.enqueuedBlocks = s.dequeuedBlocks ++ s.deferredBlocks)
    (h : SCQ.stepFn s e = some s') :
    s'.enqueuedBlocks = s'.dequeuedBlocks ++ s'.deferredBlocks := by
  cases e with
  | beginBlocking p =>
      simp only [SCQ.stepFn] at h
      split at h
      · exact Option.noConfusion h
      · injection h with h; subst h; exact heq
  | endBlocking p =>
      simp only [SCQ.stepFn] at h
      split at h
      · injection h with h; subst h; exact heq
      · exact Option.noConfusion h
  | callBlockable =>
      simp only [SCQ.stepFn] at h
      split at h <;> injection h with h <;> subst h
      · exact heq
      · show s.enqueuedBlocks ++ [s.nextTask] =
          s.dequeuedBlocks ++ (s.deferredBlocks ++ [s.nextTask])
        rw [heq, List.append_assoc]
  | startGated =>
      simp only [SCQ.stepFn] at h
      injection h with h; subst h; exact heq
  | opSettled t o =>
      simp only [SCQ.stepFn] at h
      split at h
      · split at h <;> injection h with h <;> subst h <;> exact heq
      · exact Option.noConfusion h
  | drainStep =>
      simp only [SCQ.stepFn] at h
      split at h
      · split at h <;> rename_i hresp
        · injection h with h; subst h; exact heq
        · split at h <;> rename_i hblk
          · rename_i t rest
            injection h with h; subst h
            show s.enqueuedBlocks = (s.dequeuedBlocks ++ [t]) ++ rest
            rw [heq, hblk, List.append_assoc]
            simp
          · exact Option.noConfusion h
      · exact Option.noConfusion h
  | reset => exact absurd rfl hne

theorem run_fifo {s s' : SCQ.State} {evs : List SCQ.Ev}
    (hnr : ∀ e ∈ evs, e ≠ SCQ.Ev.reset)
    (heq : s.enqueuedBlocks = s.dequeuedBlocks ++ s.deferredBlocks)
    (h : SCQ.run s evs = some s') :
    s'.enqueuedBlocks = s'.dequeuedBlocks ++ s'.deferredBlocks := by
  induction evs generalizing s with
  | nil =>
      simp only [SCQ.run] at h
      injection h with h
      subst h
      exact heq
  | cons e es ih =>
      simp only [SCQ.run] at h
      cases hst : SCQ.stepFn s e with
      | none => rw [hst] at h; exact Option.noConfusion h
      | some s1 =>
          rw [hst] at h
          exact ih (fun x hx => hnr x (List.mem_cons_of_mem _ hx))
            (step_fifo (hnr e (List.mem_cons_self _ _)) heq hst) h

theorem qDrainStep_guard {exec : Nat → SCQ.State → SCQ.State} {s : SCQ.State}
    {a : QAct} {s1 : SCQ.State} (h : SCQ.qDrainStep exec s = some (a, s1)) :
    s.blockingCalls = [] := by
  simp only [SCQ.qDrainStep] at h
  split at h
  · assumption
  · exact Option.noConfusion h

theorem pDrainStep_guard {s : SCM.PState} {t : SCM.MTask} {s1 : SCM.PState}
    (h : SCM.pDrainStep s = some (t, s1)) : s.blockingCalls = [] := by
  simp only [SCM.pDrainStep] at h
  split at h
  · assumption
  · exact Option.noConfusion h

theorem process_guard (eff : SCM.MTask → SCM.PState → SCM.PState) :
    ∀ fuel s, ∀ x ∈ SCM.process eff fuel s, x.2.blockingCalls = [] := by
  intro fuel
  induction fuel with
  | zero => intro s x hx; simp [SCM.process] at hx
  | succ n ih =>
      intro s x hx
      simp only [SCM.process] at hx
      cases hd : SCM.pDrainStep s with
      | none =>
          rw [hd] at hx
          exact absurd hx (List.not_mem_nil x)
      | some ts =>
          obtain ⟨t, s1⟩ := ts
          rw [hd] at hx
          rcases List.mem_cons.mp hx with hx | hx
          · subst hx
            exact pDrainStep_guard hd
          · exact ih _ x hx

theorem noAdjacentTasks_barrier_cons (l : List QAct) :
    noAdjacentTasks (QAct.barrier :: l) = noAdjacentTasks l := by
  cases l with
  | nil => rfl
  | cons a rest => simp [noAdjacentTasks, isTaskAct]

theorem processQ_no_adjacent (exec : Nat → SCQ.State → SCQ.State)
    (env : SCQ.State → SCQ.State) :
    ∀ fuel s, noAdjacentTasks (SCQ.processQ exec env fuel s) = true := by
  intro fuel
  induction fuel with
  | zero => intro s; rfl
  | succ n ih =>
      intro s
      simp only [SCQ.processQ]
      cases hd : SCQ.qDrainStep exec s with
      | none => rfl
      | some p =>
          obtain ⟨a, s1⟩ := p
          show noAdjacentTasks (a :: QAct.barrier :: SCQ.processQ exec env n (env s1)) = true
          cases a <;>
            simp [noAdjacentTasks, isTaskAct, noAdjacentTasks_barrier_cons, ih]

/-- C1 (counterexample): the claim that a `blockable`-wrapped operation's
promise does not resolve or reject until every blocking operation its body
invoked has settled is false for `src/concurrency.ts`, in two ways.  First
trace (`exTrace1`): the body starts a blocking call (handle 1); the
unconditional window cleanup of line 182 runs before the body returns; at
`bodyReturn`, `outputGate` (line 258) sees an empty `callsJustBlocked`,
takes its else-branch (line 265), and the caller's promise resolves (gate 0
delivered) while blocking call 1 is still pending and unsettled.  Second
trace (`exTrace1r`): the body starts blocking calls 1 and 2 and returns;
`outputGate` holds the result behind `Promise.all` of both (line 263); the
promise of call 1 rejects, `Promise.all` rejects at once, and the
handler-less `.then` passes the rejection to the caller (gate 0 delivered)
while blocking call 2 — invoked by the same body — is still pending and
unsettled. -/
theorem c1_counterexample :
    (SCM.mrun SCM.minit exTrace1 = some exFinal1 ∧
     exFinal1.deliveredGates = [0] ∧
     exFinal1.blockingCalls = [1] ∧
     exFinal1.settled = []) ∧
    (SCM.mrun SCM.minit exTrace1r = some exFinal1r ∧
     exFinal1r.deliveredGates = [0] ∧
     (1 : Nat) ∈ exFinal1r.rejected ∧
     (2 : Nat) ∉ exFinal1r.settled) :=
  ⟨⟨by decide, rfl, rfl, rfl⟩, ⟨by decide, rfl, by decide, by decide⟩⟩

/-- C1 (amended): a held blockable result — one whose body returned while
`callsJustBlocked` was non-empty — settles exactly as `Promise.all` over the
windowed blocking operations captured at body return: it is delivered only
once every captured operation has fulfilled (the result resolves) or some
captured operation has rejected (the result rejects at once, without
waiting for the still-pending siblings); in particular, whenever a captured
operation has rejected, delivery is immediately enabled.  `outputGate`
captures exactly the windowed handles, and in the two-queue variant a gated
settlement delivers immediately only when the active set is empty.
Blocking operations whose window registration expired before the body
returned are not awaited at all (see the counterexample). -/
theorem c1_amended_output_gate :
    (∀ (s s1 : SCM.MState) (g g0 : Nat) (hl : List Nat),
        s.heldGates.find? (fun e => e.1 = g) = some (g0, hl) →
        SCM.mstepFn s (SCM.MEv.deliverGate g) = some s1 →
        (∀ h ∈ hl, h ∈ s.settled ∧ h ∉ s.rejected) ∨ (∃ h ∈ hl, h ∈ s.rejected)) ∧
    (∀ (s : SCM.MState) (g g0 : Nat) (hl : List Nat) (h : Nat),
        s.heldGates.find? (fun e => e.1 = g) = some (g0, hl) →
        h ∈ hl → h ∈ s.rejected →
        (SCM.mstepFn s (SCM.MEv.deliverGate g)).isSome = true) ∧
    (∀ s s1 : SCM.MState, s.callsJustBlocked ≠ [] →
        SCM.mstepFn s SCM.MEv.bodyReturn = some s1 →
        s1.heldGates = s.heldGates ++ [(s.nextGate, s.callsJustBlocked)] ∧
        s1.deliveredGates = s.deliveredGates) ∧
    (∀ (s s1 : SCQ.State) (t : Nat) (o : Outcome),
        SCQ.stepFn s (SCQ.Ev.opSettled t o) = some s1 →
        s1.delivered ≠ s.delivered → s.blockingCalls = []) := by
  refine ⟨?_, ?_, ?_, ?_⟩
  · intro s s1 g g0 hl hfind hstep
    simp only [SCM.mstepFn, hfind] at hstep
    split at hstep
    · rename_i hcond
      simp only [SCM.promiseAllSettled, Bool.or_eq_true, List.all_eq_true,
        List.any_eq_true, decide_eq_true_eq] at hcond
      exact hcond
    · exact Option.noConfusion hstep
  · intro s g g0 hl h hfind hmem hrej
    have hany : hl.any (fun x => x ∈ s.rejected) = true := by
      simp only [List.any_eq_true, decide_eq_true_eq]
      exact ⟨h, hmem, hrej⟩
    simp [SCM.mstepFn, hfind, SCM.promiseAllSettled, hany]
  · intro s s1 hne hstep
    simp only [SCM.mstepFn] at hstep
    split at hstep
    · rename_i hc
      exact absurd hc hne
    · injection hstep with hstep
      subst hstep
      exact ⟨rfl, rfl⟩
  · intro s s1 t o hstep hdel
    simp only [SCQ.stepFn] at hstep
    by_cases hg : t ∈ s.started ∧ t ∉ s.settledOps
    · by_cases hbc : s.blockingCalls = []
      · exact hbc
      · rw [if_pos hg, if_neg hbc] at hstep
        injection hstep with hstep
        subst hstep
        exact absurd rfl hdel
    · rw [if_neg hg] at hstep
      exact Option.noConfusion hstep

/-- C1 (witness): a held gate over handles 1 and 2 with handle 1 rejected and
handle 2 still pending is immediately deliverable — the rejection
short-circuit of `Promise.all` — and a held gate awaiting only the fulfilled
handle 1 delivers with every captured handle fulfilled. -/
theorem c1_amended_witness :
    wGateRej.heldGates.find? (fun e => e.1 = 0) = some (0, [1, 2]) ∧
    (1 : Nat) ∈ wGateRej.rejected ∧
    (2 : Nat) ∉ wGateRej.settled ∧
    (SCM.mstepFn wGateRej (SCM.MEv.deliverGate 0)).isSome = true ∧
    (SCM.mstepFn wGate (SCM.MEv.deliverGate 0) = some wGateAfter ∧
     ((∀ h ∈ ([1] : List Nat), h ∈ wGate.settled ∧ h ∉ wGate.rejected) ∨
      (∃ h ∈ ([1] : List Nat), h ∈ wGate.rejected))) :=
  ⟨by decide, by decide, by decide,
    c1_amended_output_gate.2.1 wGateRej 0 0 [1, 2] 1 (by decide) (by decide) (by decide),
    by decide,
    c1_amended_output_gate.1 wGate wGateAfter 0 0 [1] (by decide) (by decide)⟩

/-- C2: while the set of in-flight blocking calls is non-empty, no queued
deferred invocation begins executing and no deferred response is delivered:
a drain step is enabled only when `blockingCalls` is empty; every other step
taken while the set is non-empty leaves both the dequeue history and the
delivered history unchanged; and every task the merged-queue `process` loop
of `src/concurrency.ts` executes was dequeued in a state with an empty set. -/
theorem c2_no_deferred_work_while_blocked :
    (∀ s s1 : SCQ.State, SCQ.stepFn s SCQ.Ev.drainStep = some s1 →
        s.blockingCalls = []) ∧
    (∀ (s s1 : SCQ.State) (e : SCQ.Ev), SCQ.stepFn s e = some s1 →
        s.blockingCalls ≠ [] →
        s1.dequeuedBlocks = s.dequeuedBlocks ∧ s1.delivered = s.delivered) ∧
    (∀ (eff : SCM.MTask → SCM.PState → SCM.PState) (fuel : Nat) (s : SCM.PState),
        ∀ x ∈ SCM.process eff fuel s, x.2.blockingCalls = []) := by
  refine ⟨?_, ?_, fun eff => process_guard eff⟩
  · intro s s1 h
    simp only [SCQ.stepFn] at h
    split at h
    · assumption
    · exact Option.noConfusion h
  · intro s s1 e h hne
    cases e with
    | beginBlocking p =>
        simp only [SCQ.stepFn] at h
        by_cases hp : p ∈ s.blockingCalls
        · rw [if_pos hp] at h; exact Option.noConfusion h
        · rw [if_neg hp] at h; injection h with h; subst h; exact ⟨rfl, rfl⟩
    | endBlocking p =>
        simp only [SCQ.stepFn] at h
        by_cases hp : p ∈ s.blockingCalls
        · rw [if_pos hp] at h; injection h with h; subst h; exact ⟨rfl, rfl⟩
        · rw [if_neg hp] at h; exact Option.noConfusion h
    | callBlockable =>
        simp only [SCQ.stepFn] at h
        rw [if_neg hne] at h
        injection h with h; subst h; exact ⟨rfl, rfl⟩
    | startGated =>
        simp only [SCQ.stepFn] at h
        injection h with h; subst h; exact ⟨rfl, rfl⟩
    | opSettled t o =>
        simp only [SCQ.stepFn] at h
        by_cases hg : t ∈ s.started ∧ t ∉ s.settledOps
        · rw [if_pos hg, if_neg hne] at h
          injection h with h; subst h; exact ⟨rfl, rfl⟩
        · rw [if_neg hg] at h; exact Option.noConfusion h
    | drainStep =>
        simp only [SCQ.stepFn] at h
        rw [if_neg hne] at h
        exact Option.noConfusion h
    | reset =>
        simp only [SCQ.stepFn] at h
        injection h with h; subst h; exact ⟨rfl, rfl⟩

/-- C2 (witness): a `blockable` call arriving while a blocker is active is
deferred; nothing is dequeued and nothing is delivered by that step. -/
theorem c2_witness :
    SCQ.stepFn wBlocked SCQ.Ev.callBlockable = some wBlockedAfter ∧
    wBlocked.blockingCalls ≠ [] ∧
    (wBlockedAfter.dequeuedBlocks = wBlocked.dequeuedBlocks ∧
     wBlockedAfter.delivered = wBlocked.delivered) :=
  ⟨by decide, by decide,
    c2_no_deferred_work_while_blocked.2.1 wBlocked wBlockedAfter SCQ.Ev.callBlockable
      (by decide) (by decide)⟩

/-- C3 (counterexample): the claim that a deferred invocation is never
dequeued or executed while a deferred response is pending is false for
`src/concurrency.ts`, whose single merged queue has no cross-kind priority:
with the queue holding an invocation thunk (pushed on line 137 during a
block) followed by a response thunk (pushed on line 207 during the same
block), `process` executes the invocation first, while the deferred response
is still queued. -/
theorem c3_counterexample :
    (SCM.process effId 2 exQueue3).map Prod.fst =
      [SCM.MTask.invocation 10, SCM.MTask.response 20 (Outcome.fulfilled 5)] ∧
    (SCM.process effId 2 exQueue3).head? = some (SCM.MTask.invocation 10, exQueue3) ∧
    exQueue3.deferred.filter SCM.MTask.isResponse =
      [SCM.MTask.response 20 (Outcome.fulfilled 5)] :=
  ⟨by decide, by decide, by decide⟩

/-- C3 (amended): in the two-queue variant (`src/unnamed/part_001`) both
queues are strict FIFO — enqueues append, the drain dequeues the head — and a
deferred invocation is dequeued only when the response queue is empty; in
`src/concurrency.ts` all deferred tasks, responses and invocations alike,
occupy one strict-FIFO queue and run in global enqueue order, with no
response-before-invocation priority. -/
theorem c3_amended_queue_discipline :
    (∀ (exec : Nat → SCQ.State → SCQ.State) (s : SCQ.State)
        (p : Nat × Outcome) (rest : List (Nat × Outcome)),
        s.blockingCalls = [] → s.deferredResponses = p :: rest →
        SCQ.qDrainStep exec s = some (QAct.taskResp p.1 p.2,
          { s with deferredResponses := rest, delivered := s.delivered ++ [p] })) ∧
    (∀ (exec : Nat → SCQ.State → SCQ.State) (s : SCQ.State)
        (t : Nat) (rest : List Nat),
        s.blockingCalls = [] → s.deferredResponses = [] → s.deferredBlocks = t :: rest →
        SCQ.qDrainStep exec s = some (QAct.taskBlock t,
          exec t { s with deferredBlocks := rest, started := s.started ++ [t],
                          dequeuedBlocks := s.dequeuedBlocks ++ [t] })) ∧
    (∀ (s : SCM.PState) (t : SCM.MTask) (rest : List SCM.MTask),
        s.blockingCalls = [] → s.deferred = t :: rest →
        SCM.pDrainStep s = some (t, { s with deferred := rest })) ∧
    (∀ (s : SCM.PState) (t : Nat),
        (SCM.blockableDefer s t).deferred = s.deferred ++ [SCM.MTask.invocation t]) ∧
    (∀ (s : SCM.PState) (t r : Nat), s.blockingCalls ≠ [] →
        (SCM.onRejected s t r).1.deferred =
          s.deferred ++ [SCM.MTask.response t (Outcome.rejected r)]) := by
  refine ⟨?_, ?_, ?_, ?_, ?_⟩
  · intro exec s p rest hbc hresp
    simp [SCQ.qDrainStep, hbc, hresp]
  · intro exec s t rest hbc hresp hblk
    simp [SCQ.qDrainStep, hbc, hresp, hblk]
  · intro s t rest hbc hq
    simp [SCM.pDrainStep, hbc, hq]
  · intro s t
    rfl
  · intro s t r hne
    simp [SCM.onRejected, hne]

/-- C3 (witness): with one queued response and one queued invocation in a
quiescent two-queue state, the drain takes the response first and leaves the
invocation queue untouched. -/
theorem c3_amended_witness :
    wResp.blockingCalls = [] ∧
    wResp.deferredResponses = [(3, Outcome.fulfilled 9)] ∧
    SCQ.qDrainStep (fun _ s => s) wResp = some (QAct.taskResp 3 (Outcome.fulfilled 9),
      { wResp with deferredResponses := [], delivered := [(3, Outcome.fulfilled 9)] }) :=
  ⟨rfl, rfl, by
    exact c3_amended_queue_discipline.1 (fun _ s => s) wResp (3, Outcome.fulfilled 9) []
      rfl rfl⟩

/-- C4 (counterexample): the claim that a blocking handle is removed from the
set at the moment the underlying operation completes is false for
`src/concurrency.ts`: when a `blockable` body returns with the handle still
in the settlement window, `outputGate` (line 260) deletes it from
`blockingCalls` although the underlying operation has not settled. -/
theorem c4_counterexample :
    SCM.mrun SCM.minit [SCM.MEv.startBlockFor] = some exMid4 ∧
    exMid4.blockingCalls = [1] ∧
    SCM.mrun SCM.minit exTrace4 = some exFinal4 ∧
    exFinal4.blockingCalls = [] ∧
    exFinal4.settled = [] :=
  ⟨by decide, rfl, by decide, rfl, rfl⟩

/-- C4 (amended): a handle is inserted when the blocking call starts and is
never removed twice — the guard on line 185 makes a second `finish` a no-op,
and with set semantics settlement removes the handle; in the two-queue
variant removal happens exactly at settlement; the emptiness of
`blockingCalls` is the condition consulted to decide whether a `blockable`
call runs now or is deferred.  However, in `src/concurrency.ts` removal may
also happen early, in `outputGate`, before the operation completes (see the
counterexample). -/
theorem c4_amended_handle_lifecycle :
    (∀ s s1 : SCM.MState, SCM.mstepFn s SCM.MEv.startBlockFor = some s1 →
        s1.blockingCalls = s.blockingCalls ++ [s.call + 1]) ∧
    (∀ (bc jb : List Nat) (h : Nat), h ∉ bc → SCM.finish bc jb h = (bc, jb, false)) ∧
    (∀ (bc jb : List Nat) (h : Nat), bc.Nodup → h ∈ bc →
        (SCM.finish bc jb h).1 = bc.erase h ∧ h ∉ (SCM.finish bc jb h).1) ∧
    (∀ (s s1 : SCQ.State) (p : Nat), SCQ.stepFn s (SCQ.Ev.endBlocking p) = some s1 →
        p ∈ s.blockingCalls ∧ s1.blockingCalls = s.blockingCalls.erase p) ∧
    (∀ s : SCQ.State, (∃ s1, SCQ.stepFn s SCQ.Ev.callBlockable = some s1 ∧
        s1.deferredBlocks ≠ s.deferredBlocks) ↔ s.blockingCalls ≠ []) := by
  refine ⟨?_, ?_, ?_, ?_, ?_⟩
  · intro s s1 h
    simp only [SCM.mstepFn] at h
    injection h with h
    subst h
    rfl
  · intro bc jb h hmem
    simp [SCM.finish, hmem]
  · intro bc jb h hnd hmem
    have h1 : (SCM.finish bc jb h).1 = bc.erase h := by simp [SCM.finish, hmem]
    refine ⟨h1, ?_⟩
    rw [h1]
    exact hnd.not_mem_erase
  · intro s s1 p h
    simp only [SCQ.stepFn] at h
    split at h
    · rename_i hp
      injection h with h
      subst h
      exact ⟨hp, rfl⟩
    · exact Option.noConfusion h
  · intro s
    constructor
    · rintro ⟨s1, h1, h2⟩ hbc
      simp only [SCQ.stepFn, hbc, if_pos] at h1
      injection h1 with h1
      subst h1
      exact h2 rfl
    · intro hbc
      refine ⟨{ s with deferredBlocks := s.deferredBlocks ++ [s.nextTask],
                       enqueuedBlocks := s.enqueuedBlocks ++ [s.nextTask],
                       nextTask := s.nextTask + 1 },
              by simp [SCQ.stepFn, hbc], ?_⟩
      show s.deferredBlocks ++ [s.nextTask] ≠ s.deferredBlocks
      intro hc
      have hlen := congrArg List.length hc
      simp at hlen

/-- C4 (witness): `finish` on a handle that is no longer in the set leaves
everything unchanged and triggers nothing — a removal never happens twice. -/
theorem c4_amended_witness :
    (1 : Nat) ∉ ([2] : List Nat) ∧ SCM.finish [2] [] 1 = ([2], [], false) :=
  ⟨by decide, c4_amended_handle_lifecycle.2.1 [2] [] 1 (by decide)⟩

/-- C5 (counterexample): the claim that, when the set is empty at call time,
the immediately invoked `blockable` operation's result passes through the
blockable-response gating is false for `src/concurrency.ts`: the immediate
path (line 134) gates the result only through `outputGate`, which consults
the settlement window, not the active set.  Trace: two blocking calls are
active but their window entries have expired; a `blockable` body (which made
no blocking calls of its own) returns; its result is delivered immediately
while `blockingCalls` is non-empty, where response gating would have
deferred it. -/
theorem c5_counterexample :
    SCM.mrun SCM.minit exTrace5 = some exFinal5 ∧
    exFinal5.deliveredGates = [0] ∧
    exFinal5.blockingCalls = [1, 2] :=
  ⟨by decide, rfl, rfl⟩

/-- C5 (amended): a `blockable` call with an empty active set invokes the
target at once (in the two-queue variant the result then flows through the
blockable-response gating; in `src/concurrency.ts` it flows through the
output gate, which awaits only the settlement-window handles at body
return); with a non-empty set the call — operation, arguments and receiver
captured in a closure — is appended to the invocation queue, and its
placeholder stays unstarted and unsettled while it remains queued. -/
theorem c5_amended_blockable_dispatch :
    (∀ s : SCQ.State, s.blockingCalls = [] →
        SCQ.stepFn s SCQ.Ev.callBlockable =
          some { s with started := s.started ++ [s.nextTask],
                        nextTask := s.nextTask + 1 }) ∧
    (∀ s : SCQ.State, s.blockingCalls ≠ [] →
        SCQ.stepFn s SCQ.Ev.callBlockable =
          some { s with deferredBlocks := s.deferredBlocks ++ [s.nextTask],
                        enqueuedBlocks := s.enqueuedBlocks ++ [s.nextTask],
                        nextTask := s.nextTask + 1 }) ∧
    (∀ (evs : List SCQ.Ev) (sf : SCQ.State), SCQ.run SCQ.init evs = some sf →
        ∀ t ∈ sf.deferredBlocks, t ∉ sf.started ∧
          ∀ o : Outcome, (t, o) ∉ sf.delivered) ∧
    (∀ s s1 : SCM.MState, s.callsJustBlocked = [] →
        SCM.mstepFn s SCM.MEv.bodyReturn = some s1 →
        s1.deliveredGates = s.deliveredGates ++ [s.nextGate]) := by
  refine ⟨?_, ?_, ?_, ?_⟩
  · intro s hbc
    simp [SCQ.stepFn, hbc]
  · intro s hbc
    simp [SCQ.stepFn, hbc]
  · intro evs sf hr t ht
    have hi := run_inv init_inv hr
    refine ⟨hi.blocksNotStarted t ht, ?_⟩
    intro o hmem
    have hset := hi.deliveredSettled (t, o) hmem
    exact hi.blocksNotStarted t ht (hi.settledStarted _ hset)
  · intro s s1 hjb h
    simp only [SCM.mstepFn] at h
    split at h
    · injection h with h
      subst h
      rfl
    · rename_i hc
      exact absurd hjb hc

/-- C5 (witness): from the fresh coordinator (empty set) a `blockable` call
starts its operation immediately and queues nothing. -/
theorem c5_amended_witness :
    SCQ.init.blockingCalls = [] ∧
    SCQ.stepFn SCQ.init SCQ.Ev.callBlockable =
      some { SCQ.init with started := [0], nextTask := 1 } :=
  ⟨rfl, by exact c5_amended_blockable_dispatch.1 SCQ.init rfl⟩

/-- C6: a `blockableResponse`-wrapped call starts executing immediately —
the start step is enabled in every state and touches no queue; only delivery
is gated: if the set is non-empty when the underlying promise settles the
outcome is appended to the response queue and nothing is delivered, the
queued outcome being delivered only by a later drain step taken with an
empty set; if the set is empty at settlement the outcome passes through at
once.  The merged-queue `onFulfilled` behaves the same way. -/
theorem c6_response_gating :
    (∀ s : SCQ.State, SCQ.stepFn s SCQ.Ev.startGated =
        some { s with started := s.started ++ [s.nextTask],
                      nextTask := s.nextTask + 1 }) ∧
    (∀ (s s1 : SCQ.State) (t : Nat) (o : Outcome),
        SCQ.stepFn s (SCQ.Ev.opSettled t o) = some s1 → s.blockingCalls ≠ [] →
        s1.deferredResponses = s.deferredResponses ++ [(t, o)] ∧
        s1.delivered = s.delivered) ∧
    (∀ (s s1 : SCQ.State) (t : Nat) (o : Outcome),
        SCQ.stepFn s (SCQ.Ev.opSettled t o) = some s1 → s.blockingCalls = [] →
        s1.delivered = s.delivered ++ [(t, o)] ∧
        s1.deferredResponses = s.deferredResponses) ∧
    (∀ (s s1 : SCQ.State) (p : Nat × Outcome) (rest : List (Nat × Outcome)),
        s.deferredResponses = p :: rest → SCQ.stepFn s SCQ.Ev.drainStep = some s1 →
        s.blockingCalls = [] ∧ s1.delivered = s.delivered ++ [p]) ∧
    (∀ (s : SCM.PState) (t v : Nat), s.blockingCalls = [] →
        SCM.onFulfilled s t v = (s, some (Outcome.fulfilled v))) := by
  refine ⟨?_, ?_, ?_, ?_, ?_⟩
  · intro s
    rfl
  · intro s s1 t o h hne
    simp only [SCQ.stepFn] at h
    by_cases hg : t ∈ s.started ∧ t ∉ s.settledOps
    · rw [if_pos hg, if_neg hne] at h
      injection h with h; subst h; exact ⟨rfl, rfl⟩
    · rw [if_neg hg] at h; exact Option.noConfusion h
  · intro s s1 t o h hbc
    simp only [SCQ.stepFn] at h
    by_cases hg : t ∈ s.started ∧ t ∉ s.settledOps
    · rw [if_pos hg, if_pos hbc] at h
      injection h with h; subst h; exact ⟨rfl, rfl⟩
    · rw [if_neg hg] at h; exact Option.noConfusion h
  · intro s s1 p rest hresp h
    simp only [SCQ.stepFn] at h
    split at h <;> rename_i hbc
    · simp only [hresp] at h
      injection h with h
      subst h
      exact ⟨hbc, rfl⟩
    · exact Option.noConfusion h
  · intro s t v hbc
    simp [SCM.onFulfilled, hbc]

/-- C6 (witness): an operation that settles while a blocker is active has its
outcome captured on the response queue, with nothing delivered. -/
theorem c6_witness :
    SCQ.stepFn wSettle (SCQ.Ev.opSettled 0 (Outcome.fulfilled 3)) = some wSettleAfter ∧
    wSettle.blockingCalls ≠ [] ∧
    (wSettleAfter.deferredResponses =
        wSettle.deferredResponses ++ [(0, Outcome.fulfilled 3)] ∧
     wSettleAfter.delivered = wSettle.delivered) :=
  ⟨by decide, by decide,
    c6_response_gating.2.1 wSettle wSettleAfter 0 (Outcome.fulfilled 3)
      (by decide) (by decide)⟩

/-- C7 (counterexample): the claim that the drain loop re-runs the settlement
barrier between any two deferred tasks is false for `src/concurrency.ts`:
its `process` (lines 227-231) is a synchronous while loop whose body is just
`deferred.shift()!()`, so two queued tasks run back to back with no barrier
action between them. -/
theorem c7_counterexample :
    SCM.processActs effId 2 exQueue7 = [QAct.taskBlock 10, QAct.taskBlock 11] ∧
    noAdjacentTasks (SCM.processActs effId 2 exQueue7) = false :=
  ⟨by decide, by decide⟩

/-- C7 (amended): in the two-queue variant the drain loop awaits the
settlement barrier after every drained task — its action trace never has two
task actions adjacent — and each dequeue is guarded by re-checking that the
active set is empty; in `src/concurrency.ts` the loop re-checks only
set-emptiness between tasks and runs no barrier inside the loop (the barrier
runs once, before `process` is scheduled). -/
theorem c7_amended_drain_barrier :
    (∀ (exec : Nat → SCQ.State → SCQ.State) (env : SCQ.State → SCQ.State)
        (fuel : Nat) (s : SCQ.State),
        noAdjacentTasks (SCQ.processQFull exec env fuel s) = true) ∧
    (∀ (exec : Nat → SCQ.State → SCQ.State) (s : SCQ.State) (a : QAct)
        (s1 : SCQ.State),
        SCQ.qDrainStep exec s = some (a, s1) → s.blockingCalls = []) ∧
    (∀ (s : SCM.PState) (t : SCM.MTask) (s1 : SCM.PState),
        SCM.pDrainStep s = some (t, s1) → s.blockingCalls = []) := by
  refine ⟨?_, ?_, ?_⟩
  · intro exec env fuel s
    show noAdjacentTasks (QAct.barrier :: SCQ.processQ exec env fuel (env s)) = true
    rw [noAdjacentTasks_barrier_cons]
    exact processQ_no_adjacent exec env fuel (env s)
  · intro exec s a s1 h
    exact qDrainStep_guard h
  · intro s t s1 h
    exact pDrainStep_guard h

/-- C7 (witness): a drain step taken on a state with one queued response is
enabled, and the guard it checked was the emptiness of the active set. -/
theorem c7_amended_witness :
    SCQ.qDrainStep (fun _ s => s) wResp7 = some (QAct.taskResp 4 (Outcome.rejected 2),
      { wResp7 with deferredResponses := [], delivered := [(4, Outcome.rejected 2)] }) ∧
    wResp7.blockingCalls = [] :=
  ⟨by decide,
    c7_amended_drain_barrier.2.1 (fun _ s => s) wResp7
      (QAct.taskResp 4 (Outcome.rejected 2))
      { wResp7 with deferredResponses := [], delivered := [(4, Outcome.rejected 2)] }
      (by decide)⟩

/-- C8: failures propagate without loss.  A blocking operation's rejection is
handled exactly like success — `finish` runs, the handle is cleared when
still present, a drain is triggered exactly when the set empties — and the
rejection is rethrown unchanged.  A deferred outcome that is a rejection
settles only its own placeholder: delivery appends exactly that rejection
and leaves both queues' remaining entries untouched.  A captured rejection
on the merged queue keeps its original reason and is not delivered early. -/
theorem c8_error_propagation :
    (∀ (bc jb : List Nat) (h r : Nat),
        (SCM.blockForSettle bc jb h (Outcome.rejected r)).2 = Outcome.rejected r) ∧
    (∀ (bc jb : List Nat) (h r v : Nat),
        (SCM.blockForSettle bc jb h (Outcome.rejected r)).1 =
          (SCM.blockForSettle bc jb h (Outcome.fulfilled v)).1) ∧
    (∀ (bc jb : List Nat) (h r : Nat), h ∈ bc →
        (SCM.blockForSettle bc jb h (Outcome.rejected r)).1.1 = bc.erase h ∧
        (SCM.blockForSettle bc jb h (Outcome.rejected r)).1.2.2 =
          (bc.erase h).isEmpty) ∧
    (∀ (s s1 : SCQ.State) (t r : Nat),
        SCQ.stepFn s (SCQ.Ev.opSettled t (Outcome.rejected r)) = some s1 →
        s.blockingCalls = [] →
        s1.delivered = s.delivered ++ [(t, Outcome.rejected r)] ∧
        s1.deferredBlocks = s.deferredBlocks ∧
        s1.deferredResponses = s.deferredResponses) ∧
    (∀ (s s1 : SCQ.State) (t r : Nat) (rest : List (Nat × Outcome)),
        s.deferredResponses = (t, Outcome.rejected r) :: rest →
        SCQ.stepFn s SCQ.Ev.drainStep = some s1 →
        s1.delivered = s.delivered ++ [(t, Outcome.rejected r)] ∧
        s1.deferredBlocks = s.deferredBlocks ∧
        s1.deferredResponses = rest) ∧
    (∀ (s : SCM.PState) (t r : Nat), s.blockingCalls ≠ [] →
        (SCM.onRejected s t r).2 = none ∧
        (SCM.onRejected s t r).1.deferred =
          s.deferred ++ [SCM.MTask.response t (Outcome.rejected r)]) := by
  refine ⟨?_, ?_, ?_, ?_, ?_, ?_⟩
  · intro bc jb h r
    rfl
  · intro bc jb h r v
    rfl
  · intro bc jb h r hmem
    constructor <;> simp [SCM.blockForSettle, SCM.finish, hmem]
  · intro s s1 t r h hbc
    simp only [SCQ.stepFn] at h
    by_cases hg : t ∈ s.started ∧ t ∉ s.settledOps
    · rw [if_pos hg, if_pos hbc] at h
      injection h with h; subst h; exact ⟨rfl, rfl, rfl⟩
    · rw [if_neg hg] at h; exact Option.noConfusion h
  · intro s s1 t r rest hresp h
    simp only [SCQ.stepFn] at h
    split at h <;> rename_i hbc
    · simp only [hresp] at h
      injection h with h
      subst h
      exact ⟨rfl, rfl, rfl⟩
    · exact Option.noConfusion h
  · intro s t r hne
    constructor <;> simp [SCM.onRejected, hne]

/-- C8 (witness): a rejecting blocking call whose handle is still registered
has the handle erased and, the set becoming empty, triggers a drain. -/
theorem c8_witness :
    (1 : Nat) ∈ ([1] : List Nat) ∧
    ((SCM.blockForSettle [1] [1] 1 (Outcome.rejected 5)).1.1 =
        ([1] : List Nat).erase 1 ∧
     (SCM.blockForSettle [1] [1] 1 (Outcome.rejected 5)).1.2.2 =
        (([1] : List Nat).erase 1).isEmpty) :=
  ⟨by decide, c8_error_propagation.2.2.1 [1] [1] 1 5 (by decide)⟩

/-- C9: in any reset-free run of the two-queue coordinator, the enqueue
history of the invocation queue equals the dequeue history followed by the
still-queued entries — so deferred invocations execute in exactly the order
they were issued — the history is duplicate-free — so no call executes
twice — and once the queue is empty every call ever deferred has been
dequeued and executed exactly once.  Blocking calls all settling is what
lets the drain empty the queue. -/
theorem c9_deferred_execution_fifo (evs : List SCQ.Ev)
    (hnr : ∀ e ∈ evs, e ≠ SCQ.Ev.reset) (sf : SCQ.State)
    (hr : SCQ.run SCQ.init evs = some sf) :
    sf.enqueuedBlocks = sf.dequeuedBlocks ++ sf.deferredBlocks ∧
    sf.enqueuedBlocks.Nodup ∧
    (sf.deferredBlocks = [] → sf.dequeuedBlocks = sf.enqueuedBlocks) := by
  have h1 := run_fifo hnr (by simp [SCQ.init]) hr
  have h2 := (run_inv init_inv hr).enqNodup
  exact ⟨h1, h2, fun hq => by rw [h1, hq, List.append_nil]⟩

/-- C9 (witness): a call deferred behind a blocking call is dequeued by the
drain after the blocker settles; histories agree and are duplicate-free. -/
theorem c9_witness :
    (∀ e ∈ wTrace9, e ≠ SCQ.Ev.reset) ∧
    SCQ.run SCQ.init wTrace9 = some wFinal9 ∧
    (wFinal9.enqueuedBlocks = wFinal9.dequeuedBlocks ++ wFinal9.deferredBlocks ∧
     wFinal9.enqueuedBlocks.Nodup ∧
     (wFinal9.deferredBlocks = [] → wFinal9.dequeuedBlocks = wFinal9.enqueuedBlocks)) :=
  ⟨by decide, by decide,
    c9_deferred_execution_fifo wTrace9 (by decide) wFinal9 (by decide)⟩

/-- C10: deferred tasks discarded by `reset` are never executed and their
placeholders never settle: in every continuation of a run in which a queued
invocation was dropped, that task is never started, never re-queued, and no
outcome for it is ever delivered; likewise a dropped deferred response's
outcome is never delivered, so the pending callers' placeholder promises are
neither resolved nor rejected afterwards. -/
theorem c10_reset_drops_tasks (evs1 evs2 : List SCQ.Ev) (s1 s2 : SCQ.State)
    (h1 : SCQ.run SCQ.init evs1 = some s1) (h2 : SCQ.run s1 evs2 = some s2) :
    (∀ t ∈ s1.droppedBlocks, t ∉ s2.started ∧ t ∉ s2.deferredBlocks ∧
        ∀ o : Outcome, (t, o) ∉ s2.delivered) ∧
    (∀ p ∈ s1.droppedResponses, ∀ o : Outcome, (p.1, o) ∉ s2.delivered) := by
  have hinv1 := run_inv init_inv h1
  have hinv2 := run_inv hinv1 h2
  have hmono := run_dropped_mono h2
  constructor
  · intro t ht
    have ht2 := hmono.1 t ht
    refine ⟨hinv2.droppedNotStarted t ht2, hinv2.droppedNotQueued t ht2, ?_⟩
    intro o hmem
    have hset := hinv2.deliveredSettled (t, o) hmem
    exact hinv2.droppedNotStarted t ht2 (hinv2.settledStarted _ hset)
  · intro p hp o hmem
    have hp2 := hmono.2 p hp
    exact hinv2.droppedRespNotDelivered p hp2 (p.1, o) hmem rfl

/-- C10 (witness): task 0, deferred and then dropped by `reset`, is absent
from every later history even though a fresh `blockable` call ran after. -/
theorem c10_witness :
    SCQ.run SCQ.init wTrace10 = some wMid10 ∧
    SCQ.run wMid10 wTrace10b = some wFinal10 ∧
    (0 : Nat) ∈ wMid10.droppedBlocks ∧
    ((0 : Nat) ∉ wFinal10.started ∧ (0 : Nat) ∉ wFinal10.deferredBlocks ∧
     ∀ o : Outcome, ((0 : Nat), o) ∉ wFinal10.delivered) :=
  ⟨by decide, by decide, by decide,
    (c10_reset_drops_tasks wTrace10 wTrace10b wMid10 wFinal10
      (by decide) (by decide)).1 0 (by decide)⟩

end SimplifiedConcurrency
